import Mathlib

/-!
Verification development for the patent-application examination core of the
repository: the document extractor (`document_parser.py`) and the rule engine
(`rule_engine.py`).  Text is modelled as `List Char` (a Python `str` is a
sequence of code points); floating-point confidences and durations are
modelled as exact rationals; a rule body that raises an exception is modelled
as an `Except String` result.
-/

/-- Python `\s` on the characters appearing in this code base. -/
def isSpaceChar (c : Char) : Bool := c.isWhitespace

/-- Python `str.strip()`. -/
def trimChars (l : List Char) : List Char :=
  ((l.dropWhile isSpaceChar).reverse.dropWhile isSpaceChar).reverse

/-- Truthiness of an optional string (`None` and `""` are falsy). -/
def optTruthy : Option (List Char) → Bool
  | none => false
  | some s => !s.isEmpty

/-- Match a literal at the head of the input, returning the rest. -/
def stripLit : List Char → List Char → Option (List Char)
  | [], l => some l
  | c :: cs, x :: xs => if x = c then stripLit cs xs else none
  | _ :: _, [] => none

/-- Dataclass `PatentDocument` from `document_parser.py` (lines 16-37).
`__post_init__` replaces `None` sequence fields with `[]`, so `claims` and
`drawings` are plain lists here. -/
structure PatentDocument where
  application_number : Option (List Char)
  application_date : Option (List Char)
  title : Option (List Char)
  applicant : Option (List Char)
  inventor : Option (List Char)
  agent : Option (List Char)
  technical_field : Option (List Char)
  background_art : Option (List Char)
  invention_content : Option (List Char)
  claims : List (List Char)
  description : Option (List Char)
  drawings : List (List Char)
  abstract : Option (List Char)
deriving DecidableEq

/-- The all-absent record `PatentDocument()`. -/
def emptyPatentDocument : PatentDocument :=
  { application_number := none, application_date := none, title := none,
    applicant := none, inventor := none, agent := none,
    technical_field := none, background_art := none, invention_content := none,
    claims := [], description := none, drawings := [], abstract := none }

/-! ## Document extractor (`DocumentParser._extract_patent_info`, lines 168-246)

Each Python regular expression of the source is translated into a dedicated
scanner over `List Char`.  `re.search` is leftmost search (`firstMatch`),
greedy `\s*` with its one useful backtracking step is spelled out, and the
lazy groups `(.+?)` grow one character at a time, checking their terminator
or lookahead first.  `re.DOTALL` patterns allow newlines in the group, the
single-line patterns exclude them. -/

/-- Leftmost `re.search`: try a match at every position, the earliest wins. -/
def firstMatch (f : List Char → Option α) : List Char → Option α
  | [] => f []
  | c :: r =>
    match f (c :: r) with
    | some x => some x
    | none => firstMatch f r

/-- Character class `[：:]` — one fullwidth or ASCII colon. -/
def stripColon : List Char → Option (List Char)
  | c :: r => if c = '：' then some r else if c = ':' then some r else none
  | [] => none

/-- The regex atom `\d+\.` at the head of the input: a nonempty greedy run of
digits followed by a literal dot; returns the digits and the rest. -/
def digitsDotSplit (l : List Char) : Option (List Char × List Char) :=
  if (l.takeWhile Char.isDigit).isEmpty then none
  else
    match l.drop (l.takeWhile Char.isDigit).length with
    | '.' :: r => some (l.takeWhile Char.isDigit, r)
    | _ => none

/-- Does one of the literal terminators match at the head of the input? -/
def isTermAt (terms : List (List Char)) (l : List Char) : Bool :=
  terms.any (fun t => t.isPrefixOf l)

/-- The lookahead alternative `\n\s*\n` (a blank line) at the head. -/
def isBlankLineAt : List Char → Bool
  | '\n' :: r => (r.takeWhile isSpaceChar).contains '\n'
  | _ => false

/-- Lazy growth of a `(.+?)` group after its first character when the
pattern ends with a lookahead that also accepts `$`: split the input at the
first position where the terminator matches (end of input always stops). -/
def growUntil (isTerm : List Char → Bool) : List Char → List Char × List Char
  | [] => ([], [])
  | c :: r =>
    if isTerm (c :: r) then ([], c :: r)
    else
      match growUntil isTerm r with
      | (b, rest) => (c :: b, rest)

/-- Lazy growth of a `(.+?)` group when the terminator list does not contain
`$`: reaching the end of input without a terminator fails. -/
def growStrict (isTerm : List Char → Bool) : List Char → Option (List Char × List Char)
  | [] => none
  | c :: r =>
    if isTerm (c :: r) then some ([], c :: r)
    else
      match growStrict isTerm r with
      | some p => some (c :: p.1, p.2)
      | none => none

/-- Match `\s*(.+?)(?=TERMS|$)` (DOTALL) against the input right after a
section header: greedy `\s*`, then a lazy nonempty group; when everything
left is whitespace the single useful backtrack of `\s*` makes the group the
final whitespace character.  Returns the captured group (the lookahead is
not consumed). -/
def sectionTailDollar (isTerm : List Char → Bool) (t : List Char) : Option (List Char) :=
  match t.drop (t.takeWhile isSpaceChar).length with
  | [] => if t.isEmpty then none else some (t.drop (t.length - 1))
  | c :: r =>
    match growUntil isTerm r with
    | (b, _) => some (c :: b)

/-- Match `\s*(.+?)(?=TERMS)` (DOTALL, no `$` alternative): the group must be
stopped by a terminator; `\s*` backtracks from its greedy length `k` down to
zero until the lazy group can be closed. -/
def sectionTailNDAux (isTerm : List Char → Bool) (t : List Char) : Nat → Option (List Char)
  | 0 =>
    match t with
    | [] => none
    | c :: r =>
      match growStrict isTerm r with
      | some p => some (c :: p.1)
      | none => none
  | k + 1 =>
    match t.drop (k + 1) with
    | [] => sectionTailNDAux isTerm t k
    | c :: r =>
      match growStrict isTerm r with
      | some p => some (c :: p.1)
      | none => sectionTailNDAux isTerm t k

def sectionTailND (isTerm : List Char → Bool) (t : List Char) : Option (List Char) :=
  sectionTailNDAux isTerm t (t.takeWhile isSpaceChar).length

/-- Match `\s*(.+?)(?:\n|TERMS)` (no DOTALL) against the input after a
labelled field header: the lazy group may not contain or start with a
newline; the consumed terminator is not part of the returned group. -/
def lineTailAux (isTerm : List Char → Bool) (t : List Char) : Nat → Option (List Char)
  | 0 =>
    match t with
    | [] => none
    | c :: r =>
      if c = '\n' then none
      else
        match growStrict isTerm r with
        | some p => some (c :: p.1)
        | none => none
  | k + 1 =>
    match t.drop (k + 1) with
    | [] => lineTailAux isTerm t k
    | c :: r =>
      if c = '\n' then lineTailAux isTerm t k
      else
        match growStrict isTerm r with
        | some p => some (c :: p.1)
        | none => lineTailAux isTerm t k

def lineTail (terms : List (List Char)) (t : List Char) : Option (List Char) :=
  lineTailAux (isTermAt terms) t (t.takeWhile isSpaceChar).length

/-- Pattern `申请号[：:]\s*(\d{13}|\d{4}\d{8})` at one position (line 173): after the
label, a run of at least 13 digits yields its first 13 characters, a run of
exactly 12 or more yields the first 12. -/
def matchAppNumberAt (l : List Char) : Option (List Char) :=
  match stripLit "申请号".data l with
  | none => none
  | some l1 =>
    match stripColon l1 with
    | none => none
    | some l2 =>
      let u := l2.drop (l2.takeWhile isSpaceChar).length
      let ds := u.takeWhile Char.isDigit
      if 13 ≤ ds.length then some (ds.take 13)
      else if 12 ≤ ds.length then some (ds.take 12)
      else none

def dateSep1 (c : Char) : Bool := c = '年' || c = '.' || c = '-'
def dateSep2 (c : Char) : Bool := c = '月' || c = '.' || c = '-'

/-- Greedy `\d{1,2}`: two digits when available, else one, else failure. -/
def takeDigitsUpTo2 : List Char → Option (List Char × List Char)
  | a :: b :: r =>
    if a.isDigit then
      (if b.isDigit then some ([a, b], r) else some ([a], b :: r))
    else none
  | [a] => if a.isDigit then some ([a], []) else none
  | [] => none

/-- Pattern `\d{4}[年.-]\d{1,2}[月.-]\d{1,2}` at the head of the input (line 179).
After two digits, backtracking `\d{1,2}` to one digit can never rescue a
failed separator (the separator position would hold a digit), so the greedy
choice is final for the month; the day has no following constraint. -/
def matchDateCore (u : List Char) : Option (List Char) :=
  match u with
  | d1 :: d2 :: d3 :: d4 :: s1 :: rest =>
    if d1.isDigit && d2.isDigit && d3.isDigit && d4.isDigit && dateSep1 s1 then
      match takeDigitsUpTo2 rest with
      | some (mo, rest2) =>
        match rest2 with
        | s2 :: rest3 =>
          if dateSep2 s2 then
            match takeDigitsUpTo2 rest3 with
            | some (dy, _) => some ([d1, d2, d3, d4, s1] ++ mo ++ s2 :: dy)
            | none => none
          else none
        | [] => none
      | none => none
    else none
  | _ => none

/-- Pattern `申请日[：:]\s*(\d{4}[年.-]\d{1,2}[月.-]\d{1,2})` at one position. -/
def matchAppDateAt (l : List Char) : Option (List Char) :=
  match stripLit "申请日".data l with
  | none => none
  | some l1 =>
    match stripColon l1 with
    | none => none
    | some l2 => matchDateCore (l2.drop (l2.takeWhile isSpaceChar).length)

/-- Terminators `(?:\n|申请人)` of the three title patterns (lines 185-189). -/
def titleTerms : List (List Char) := ["\n".data, "申请人".data]

def matchTitleAt1 (l : List Char) : Option (List Char) :=
  match stripLit "发明名称".data l with
  | none => none
  | some l1 =>
    match stripColon l1 with
    | none => none
    | some l2 => lineTail titleTerms l2

def matchTitleAt2 (l : List Char) : Option (List Char) :=
  match stripLit "实用新型名称".data l with
  | none => none
  | some l1 =>
    match stripColon l1 with
    | none => none
    | some l2 => lineTail titleTerms l2

/-- Pattern `名\s*称[：:]\s*(.+?)(?:\n|申请人)`: the inner `\s*` cannot overlap the
literal `称`, so it is a deterministic whitespace skip. -/
def matchTitleAt3 (l : List Char) : Option (List Char) :=
  match l with
  | '名' :: r =>
    match r.drop (r.takeWhile isSpaceChar).length with
    | '称' :: r2 =>
      match stripColon r2 with
      | none => none
      | some l2 => lineTail titleTerms l2
    | _ => none
  | _ => none

/-- Pattern `申请人[：:]\s*(.+?)(?:\n|发明人|地址)` at one position (line 197). -/
def matchApplicantAt (l : List Char) : Option (List Char) :=
  match stripLit "申请人".data l with
  | none => none
  | some l1 =>
    match stripColon l1 with
    | none => none
    | some l2 => lineTail ["\n".data, "发明人".data, "地址".data] l2

/-- Pattern `发明人[：:]\s*(.+?)(?:\n|申请人|地址)` at one position (line 203). -/
def matchInventorAt (l : List Char) : Option (List Char) :=
  match stripLit "发明人".data l with
  | none => none
  | some l1 =>
    match stripColon l1 with
    | none => none
    | some l2 => lineTail ["\n".data, "申请人".data, "地址".data] l2

def techTerm (l : List Char) : Bool :=
  isTermAt ["背景技术".data, "发明内容".data] l || isBlankLineAt l

def matchTechAt1 (l : List Char) : Option (List Char) :=
  match stripLit "技术领域".data l with
  | none => none
  | some t => sectionTailND techTerm t

def matchTechAt2 (l : List Char) : Option (List Char) :=
  match stripLit "所属技术领域".data l with
  | none => none
  | some t => sectionTailND techTerm t

def bgTerm (l : List Char) : Bool :=
  isTermAt ["发明内容".data, "技术方案".data] l || isBlankLineAt l

def matchBgAt (l : List Char) : Option (List Char) :=
  match stripLit "背景技术".data l with
  | none => none
  | some t => sectionTailND bgTerm t

def contentTerm (l : List Char) : Bool :=
  isTermAt ["具体实施方式".data, "附图说明".data] l || isBlankLineAt l

def matchContentAt (l : List Char) : Option (List Char) :=
  match stripLit "发明内容".data l with
  | none => none
  | some t => sectionTailND contentTerm t

def claimsTerm (l : List Char) : Bool :=
  isTermAt ["说明书".data, "附图说明".data] l

/-- Pattern `权利要求书\s*(.+?)(?=说明书|附图说明|$)` at one position (line 232). -/
def matchClaimsAt (l : List Char) : Option (List Char) :=
  match stripLit "权利要求书".data l with
  | none => none
  | some t => sectionTailDollar claimsTerm t

def abstractTerm (l : List Char) : Bool :=
  isTermAt ["附图说明".data, "权利要求".data] l

/-- Pattern `摘\s*要\s*(.+?)(?=附图说明|权利要求|$)` at one position (line 241). -/
def matchAbstractAt (l : List Char) : Option (List Char) :=
  match l with
  | '摘' :: r =>
    match r.drop (r.takeWhile isSpaceChar).length with
    | '要' :: r2 => sectionTailDollar abstractTerm r2
    | _ => none
  | _ => none

/-! ### Claim decomposition: `re.findall(r'(\d+)\.\s*(.+?)(?=\d+\.|$)', claims_text, re.DOTALL)`
(line 237). -/

/-- The lookahead `(?=\d+\.|$)` of the claim splitter. -/
def claimBoundary (l : List Char) : Bool := (digitsDotSplit l).isSome

/-- Match `\s*(.+?)(?=\d+\.|$)` right after a `\d+\.` match: greedy `\s*`,
lazy nonempty group, one useful backtrack of `\s*` over all-whitespace input.
Returns the group and the rest of the input at the lookahead position. -/
def matchClaimTail (t : List Char) : Option (List Char × List Char) :=
  match t.drop (t.takeWhile isSpaceChar).length with
  | [] => if t.isEmpty then none else some (t.drop (t.length - 1), [])
  | c :: r =>
    match growUntil claimBoundary r with
    | (b, rest) => some (c :: b, rest)

theorem growUntil_rest_length_le (isTerm : List Char → Bool) :
    ∀ l : List Char, (growUntil isTerm l).2.length ≤ l.length
  | [] => by simp [growUntil]
  | c :: r => by
    simp only [growUntil]
    split
    · simp
    · have h := growUntil_rest_length_le isTerm r
      cases hg : growUntil isTerm r with
      | mk b rest => simp only [hg] at h ⊢; simp; omega

theorem matchClaimTail_rest_length_le {t : List Char} {q : List Char × List Char}
    (h : matchClaimTail t = some q) : q.2.length ≤ t.length := by
  unfold matchClaimTail at h
  split at h
  · split at h
    · simp at h
    · rw [Option.some_inj] at h
      subst h
      simp
  · rename_i c r heq
    cases hg : growUntil claimBoundary r with
    | mk b rest =>
      rw [hg] at h
      rw [Option.some_inj] at h
      subst h
      have h1 := growUntil_rest_length_le claimBoundary r
      rw [hg] at h1
      have h2 : (t.drop (t.takeWhile isSpaceChar).length).length ≤ t.length := by simp
      rw [heq] at h2
      simp only [List.length_cons] at h2
      simp only [] at h1 ⊢
      omega

theorem digitsDotSplit_rest_length_lt {l : List Char} {p : List Char × List Char}
    (h : digitsDotSplit l = some p) : p.2.length + 2 ≤ l.length := by
  unfold digitsDotSplit at h
  split at h
  · simp at h
  · rename_i hne
    split at h
    · rename_i r heq
      rw [Option.some_inj] at h
      subst h
      have hlen := congrArg List.length heq
      simp only [List.length_drop, List.length_cons] at hlen
      have hds : 1 ≤ (l.takeWhile Char.isDigit).length := by
        cases hd : l.takeWhile Char.isDigit with
        | nil => rw [hd] at hne; simp at hne
        | cons a as => simp [hd]
      have hle : (l.takeWhile Char.isDigit).length ≤ l.length :=
        (l.takeWhile_sublist Char.isDigit).length_le
      simp only []
      omega
    · simp at h

/-- The collected `(number, raw group)` pairs of the claim splitter, in
match order; after each match scanning resumes at the lookahead position. -/
def findClaims (l : List Char) : List (List Char × List Char) :=
  match l with
  | [] => []
  | c :: rest =>
    match h1 : digitsDotSplit (c :: rest) with
    | some p =>
      match h2 : matchClaimTail p.2 with
      | some q => (p.1, q.1) :: findClaims q.2
      | none => findClaims rest
    | none => findClaims rest
termination_by l.length
decreasing_by
  · have ha := digitsDotSplit_rest_length_lt h1
    have hb := matchClaimTail_rest_length_le h2
    simp only [List.length_cons] at ha ⊢
    omega
  · simp
  · simp

/-- Reconstruction `f"{num}. {content.strip()}"` (line 238). -/
def claimEntry (p : List Char × List Char) : List Char :=
  p.1 ++ '.' :: ' ' :: trimChars p.2

/-- Extraction `DocumentParser._extract_patent_info` (lines 168-246): every field is
recovered independently; an unmatched pattern leaves the scalar `none` and
the sequence empty.  `agent`, `description` and `drawings` are never
assigned by any pattern. -/
def extractPatentInfo (text : List Char) : PatentDocument :=
  { application_number := firstMatch matchAppNumberAt text
    application_date := firstMatch matchAppDateAt text
    title :=
      (match firstMatch matchTitleAt1 text with
        | some s => some s
        | none =>
          match firstMatch matchTitleAt2 text with
          | some s => some s
          | none => firstMatch matchTitleAt3 text).map trimChars
    applicant := (firstMatch matchApplicantAt text).map trimChars
    inventor := (firstMatch matchInventorAt text).map trimChars
    agent := none
    technical_field :=
      (match firstMatch matchTechAt1 text with
        | some s => some s
        | none => firstMatch matchTechAt2 text).map trimChars
    background_art := (firstMatch matchBgAt text).map trimChars
    invention_content := (firstMatch matchContentAt text).map trimChars
    claims :=
      match firstMatch matchClaimsAt text with
      | some s => (findClaims s).map claimEntry
      | none => []
    description := none
    drawings := []
    abstract := (firstMatch matchAbstractAt text).map trimChars }

/-! ## Document validation (`DocumentParser.validate_document`, lines 248-293) -/

/-- Check `re.match(r'^\d{13}$|^\d{12}$', s)`: the string is exactly `n` digits,
or `n` digits followed by a final newline (Python `$` also matches just
before a trailing newline). -/
def isExactDigits (n : Nat) (s : List Char) : Bool :=
  (s.length = n && s.all Char.isDigit) ||
    (s.length = n + 1 && (s.take n).all Char.isDigit && s.getLast? = some '\n')

/-- Check `re.match(r'\d{4}[年.-]\d{1,2}[月.-]\d{1,2}', s)`: the date pattern
anchored at the start of the string (the end is unconstrained). -/
def datePrefixMatch (s : List Char) : Bool :=
  (matchDateCore s).isSome

structure ValidationResult where
  errors : List String
  warnings : List String
deriving DecidableEq

/-- Validation `validate_document`: the error and warning accumulations, in source
order.  The guard of the `权利要求书为空` branch (line 284) is kept exactly
as written: `patent_doc.claims and len(patent_doc.claims) == 0`. -/
def validateDocument (d : PatentDocument) : ValidationResult :=
  { errors :=
      (if !optTruthy d.title then ["缺少发明名称"] else []) ++
      (if !optTruthy d.applicant then ["缺少申请人信息"] else []) ++
      (if d.claims.isEmpty then ["缺少权利要求书"] else []) ++
      (if !d.claims.isEmpty && d.claims.length = 0 then ["权利要求书为空"] else [])
    warnings :=
      (if !optTruthy d.abstract then ["缺少摘要"] else []) ++
      (match d.application_number with
        | some s => if !isExactDigits 13 s && !isExactDigits 12 s then ["申请号格式可能不正确"] else []
        | none => []) ++
      (match d.application_date with
        | some s => if !datePrefixMatch s then ["申请日期格式可能不正确"] else []
        | none => []) ++
      (match d.title with
        | some s => if 25 < s.length then ["发明名称过长（建议不超过25字）"] else []
        | none => []) }

/-! ## Rule engine (`rule_engine.py`)

Rules are capability records: a Python subclass overriding `execute` becomes
an `evaluate` function; a rule body that raises an exception is an
`Except.error` carrying `str(e)`.  Confidences and durations are exact
rationals; wall-clock measurement is not modelled, so the built-in rules
report duration 0 (no claim depends on a successful rule's timing). -/

inductive RuleType where
  | FORMAL
  | NOVELTY
  | INVENTIVENESS
  | UTILITY
  | SUBJECT_MATTER
deriving DecidableEq, BEq

inductive RuleResult where
  | PASS
  | FAIL
  | WARNING
  | SKIP
deriving DecidableEq

/-- Values of the rule-specific `details` mapping. -/
inductive DetailVal where
  | str : String → DetailVal
  | nat : Nat → DetailVal
  | strList : List String → DetailVal
deriving DecidableEq

/-- Dataclass `RuleExecutionResult` (lines 26-35). -/
structure RuleExecutionResult where
  rule_name : String
  rule_type : RuleType
  result : RuleResult
  confidence : ℚ
  message : String
  details : List (String × DetailVal)
  execution_time : ℚ
deriving DecidableEq

/-- Base class `ExaminationRule` (lines 37-48): name, type, priority, active toggle and
the overridable evaluation capability. -/
structure ExaminationRule where
  name : String
  rule_type : RuleType
  priority : Int
  is_active : Bool
  evaluate : PatentDocument → Except String RuleExecutionResult

/-- Truthiness of `patent_data.get(field)` for the dictionary view of a
patent record used by the rules. -/
def getFieldTruthy (d : PatentDocument) (field : String) : Bool :=
  if field = "title" then optTruthy d.title
  else if field = "applicant" then optTruthy d.applicant
  else if field = "claims" then !d.claims.isEmpty
  else if field = "description" then optTruthy d.description
  else if field = "abstract" then optTruthy d.abstract
  else if field = "technical_field" then optTruthy d.technical_field
  else if field = "background_art" then optTruthy d.background_art
  else if field = "invention_content" then optTruthy d.invention_content
  else false

def requiredFields : List String := ["title", "applicant", "claims", "description"]

def recommendedFields : List String :=
  ["abstract", "technical_field", "background_art", "invention_content"]

/-- Outcome construction of `DocumentCompletenessRule.execute` (lines
84-112), as a function of the two missing-field lists. -/
def completenessOutcome (missing_required missing_recommended : List String) :
    RuleExecutionResult :=
  if !missing_required.isEmpty then
      { rule_name := "文档完整性检查", rule_type := RuleType.FORMAL,
        result := RuleResult.FAIL, confidence := 95 / 100,
        message := "缺少必需文件: " ++ String.intercalate ", " missing_required,
        details := [("missing_required", DetailVal.strList missing_required),
                    ("missing_recommended", DetailVal.strList missing_recommended),
                    ("total_fields_checked", DetailVal.nat (requiredFields.length + recommendedFields.length))],
        execution_time := 0 }
    else if !missing_recommended.isEmpty then
      { rule_name := "文档完整性检查", rule_type := RuleType.FORMAL,
        result := RuleResult.WARNING, confidence := 80 / 100,
        message := "缺少推荐文件: " ++ String.intercalate ", " missing_recommended,
        details := [("missing_required", DetailVal.strList missing_required),
                    ("missing_recommended", DetailVal.strList missing_recommended),
                    ("total_fields_checked", DetailVal.nat (requiredFields.length + recommendedFields.length))],
        execution_time := 0 }
    else
      { rule_name := "文档完整性检查", rule_type := RuleType.FORMAL,
        result := RuleResult.PASS, confidence := 90 / 100,
        message := "文档完整性检查通过",
        details := [("missing_required", DetailVal.strList missing_required),
                    ("missing_recommended", DetailVal.strList missing_recommended),
                    ("total_fields_checked", DetailVal.nat (requiredFields.length + recommendedFields.length))],
        execution_time := 0 }

/-- Rule `DocumentCompletenessRule.execute` (lines 68-112): collect the required
and recommended fields that are absent, then grade. -/
def documentCompletenessEval (d : PatentDocument) : RuleExecutionResult :=
  completenessOutcome
    (requiredFields.filter (fun f => !getFieldTruthy d f))
    (recommendedFields.filter (fun f => !getFieldTruthy d f))

def documentCompletenessRule : ExaminationRule :=
  { name := "文档完整性检查", rule_type := RuleType.FORMAL, priority := 1,
    is_active := true, evaluate := fun d => Except.ok (documentCompletenessEval d) }

/-- Filter `if rule_types and rule.rule_type not in rule_types` (line 318): an empty
filter list is falsy in Python, so it lets every rule through. -/
def passesFilter (rule_types : Option (List RuleType)) (r : ExaminationRule) : Bool :=
  match rule_types with
  | none => true
  | some ts => ts.isEmpty || ts.contains r.rule_type

/-- The SKIP outcome the engine fabricates when a rule raises (lines 324-335). -/
def ruleFailureResult (r : ExaminationRule) (e : String) : RuleExecutionResult :=
  { rule_name := r.name, rule_type := r.rule_type, result := RuleResult.SKIP,
    confidence := 0, message := "规则执行失败: " ++ e,
    details := [("error", DetailVal.str e)], execution_time := 0 }

/-- Body of the `for rule in self.rules` loop of `execute_rules`: the
outcomes one rule contributes to `results`. -/
def runOneRule (patent_data : PatentDocument) (rule_types : Option (List RuleType))
    (r : ExaminationRule) : List RuleExecutionResult :=
  if !r.is_active then []
  else if !passesFilter rule_types r then []
  else
    match r.evaluate patent_data with
    | Except.ok res => [res]
    | Except.error e => [ruleFailureResult r e]

/-- Engine loop `RuleEngine.execute_rules` (lines 301-337). -/
def executeRules (rules : List ExaminationRule) (patent_data : PatentDocument)
    (rule_types : Option (List RuleType)) : List RuleExecutionResult :=
  rules.flatMap (runOneRule patent_data rule_types)

/-! ### Summary (`RuleEngine.get_summary`, lines 339-383) -/

/-- The mutable summary dictionary the loop of `get_summary` accumulates
into, together with the two confidence accumulators. -/
structure SummaryAcc where
  passed : Nat
  failed : Nat
  warnings : Nat
  skipped : Nat
  critical_issues : List String
  recommendations : List String
  confidence_sum : ℚ
  confidence_count : Nat
deriving DecidableEq

def initSummaryAcc : SummaryAcc :=
  { passed := 0, failed := 0, warnings := 0, skipped := 0,
    critical_issues := [], recommendations := [],
    confidence_sum := 0, confidence_count := 0 }

/-- One iteration of the `for result in results` loop (lines 355-369). -/
def summaryStep (acc : SummaryAcc) (r : RuleExecutionResult) : SummaryAcc :=
  let acc1 :=
    match r.result with
    | RuleResult.PASS => { acc with passed := acc.passed + 1 }
    | RuleResult.FAIL =>
      { acc with failed := acc.failed + 1,
                 critical_issues := acc.critical_issues ++ [r.message] }
    | RuleResult.WARNING =>
      { acc with warnings := acc.warnings + 1,
                 recommendations := acc.recommendations ++ [r.message] }
    | RuleResult.SKIP => { acc with skipped := acc.skipped + 1 }
  if 0 < r.confidence then
    { acc1 with confidence_sum := acc1.confidence_sum + r.confidence,
                confidence_count := acc1.confidence_count + 1 }
  else acc1

structure Summary where
  total_rules : Nat
  passed : Nat
  failed : Nat
  warnings : Nat
  skipped : Nat
  overall_confidence : ℚ
  critical_issues : List String
  recommendations : List String
  overall_recommendation : String
deriving DecidableEq

/-- Summary `RuleEngine.get_summary` (lines 339-383). -/
def getSummary (results : List RuleExecutionResult) : Summary :=
  match results.foldl summaryStep initSummaryAcc with
  | acc =>
    { total_rules := results.length
      passed := acc.passed
      failed := acc.failed
      warnings := acc.warnings
      skipped := acc.skipped
      overall_confidence :=
        if 0 < acc.confidence_count then acc.confidence_sum / (acc.confidence_count : ℚ) else 0
      critical_issues := acc.critical_issues
      recommendations := acc.recommendations
      overall_recommendation :=
        if 0 < acc.failed then "需要修改后重新审查"
        else if 0 < acc.warnings then "建议完善相关内容"
        else "形式审查通过" }

/-! ### Registry (`RuleEngine.add_rule` / `remove_rule`, lines 292-299)

Python `list.sort(key=lambda x: x.priority)` is a stable ascending sort by
priority; it is modelled by a stable insertion sort by the same key. -/

def insertRule (r : ExaminationRule) : List ExaminationRule → List ExaminationRule
  | [] => [r]
  | s :: l => if r.priority ≤ s.priority then r :: s :: l else s :: insertRule r l

def sortRules : List ExaminationRule → List ExaminationRule
  | [] => []
  | r :: l => insertRule r (sortRules l)

/-- Registration `add_rule`: append, then re-sort by priority (lines 292-295). -/
def addRule (rules : List ExaminationRule) (r : ExaminationRule) : List ExaminationRule :=
  sortRules (rules ++ [r])

/-- Removal `remove_rule`: keep the rules whose name differs (lines 297-299). -/
def removeRule (rules : List ExaminationRule) (rule_name : String) : List ExaminationRule :=
  rules.filter (fun rule => rule.name ≠ rule_name)

inductive RegistryOp where
  | add : ExaminationRule → RegistryOp
  | remove : String → RegistryOp

def applyOp (rules : List ExaminationRule) : RegistryOp → List ExaminationRule
  | RegistryOp.add r => addRule rules r
  | RegistryOp.remove n => removeRule rules n

/-- The registry contents after a sequence of register/unregister calls. -/
def applyOps (ops : List RegistryOp) : List ExaminationRule :=
  ops.foldl applyOp []

/-- The same sequence of calls without the re-sorting: pure registration
order (the reference for stability). -/
def naiveOp (rules : List ExaminationRule) : RegistryOp → List ExaminationRule
  | RegistryOp.add r => rules ++ [r]
  | RegistryOp.remove n => rules.filter (fun rule => rule.name ≠ n)

def naiveOps (ops : List RegistryOp) : List ExaminationRule :=
  ops.foldl naiveOp []

/-- Ascending priority order. -/
def SortedByPriority (l : List ExaminationRule) : Prop :=
  l.Pairwise (fun a b => a.priority ≤ b.priority)

/-- The rules of one priority class, in list order (the reference for the
stability part of the registry contract). -/
def filterPriority (p : Int) (l : List ExaminationRule) : List ExaminationRule :=
  l.filter (fun x => x.priority = p)

/-! ## Inputs for the claim statements and witnesses -/

/-- A claims section rendered from `(number, raw body)` pairs: each claim is
its number, a literal dot, and its raw body, concatenated. -/
def renderClaims (ps : List (List Char × List Char)) : List Char :=
  ps.flatMap (fun p => p.1 ++ '.' :: p.2)

/-- No suffix of `l` starts a `\d+\.` match. -/
def noDigitsDot : List Char → Bool
  | [] => true
  | c :: r => !claimBoundary (c :: r) && noDigitsDot r

/-- A well-formed numbered claim for the reconstruction property: a nonempty
all-digit number, and a body with visible content that contains no `\d+\.`
claim boundary and does not end in a digit (so that it cannot merge with the
next claim's number). -/
def wfClaimPair (p : List Char × List Char) : Bool :=
  !p.1.isEmpty && p.1.all Char.isDigit &&
  !(p.2.dropWhile isSpaceChar).isEmpty &&
  noDigitsDot p.2 &&
  (match p.2.getLast? with
   | some c => !c.isDigit
   | none => false)

/-- The sample application text of the concrete extraction scenario:
application number `202123456789.0`, title `一种新型螺栓结构`, applicant
`测试公司`, and two numbered claims. -/
def sampleText : List Char :=
  ("申请号：202123456789.0\n申请日：2021年12月15日\n发明名称：一种新型螺栓结构\n申请人：测试公司\n发明人：张三\n技术领域\n本实用新型涉及紧固件技术领域。\n背景技术\n现有的螺栓结构存在松动问题。\n发明内容\n本实用新型的目的是提供一种防松螺栓结构。\n权利要求书\n1. 一种新型螺栓结构，包括螺栓头和螺栓杆，其特征在于：所述螺栓头设有防松槽。\n2. 根据权利要求1所述的螺栓结构，其特征在于：所述防松槽为六边形。\n摘要\n本实用新型公开了一种新型螺栓结构。\n").data

/-- Two well-formed numbered claims for the round-trip witness. -/
def demoClaims : List (List Char × List Char) :=
  [("1".data, " 一种螺栓头结构。\n".data), ("2".data, " 根据前述结构。".data)]

/-- The two claims of the sample text, as `(number, raw body)` pairs: the
claims section captured from `sampleText` is exactly their rendering (the second claim's raw body runs to the end of the text, 摘要
included, because no lookahead terminator occurs after it). -/
def sampleClaimPairs : List (List Char × List Char) :=
  [("1".data, " 一种新型螺栓结构，包括螺栓头和螺栓杆，其特征在于：所述螺栓头设有防松槽。\n".data),
   ("2".data, " 根据权利要求1所述的螺栓结构，其特征在于：所述防松槽为六边形。\n摘要\n本实用新型公开了一种新型螺栓结构。\n".data)]

/-- A rule whose body raises: `evaluate` fails with reason `boom`. -/
def badRule : ExaminationRule :=
  { name := "演示失败规则", rule_type := RuleType.FORMAL, priority := 1,
    is_active := true, evaluate := fun _ => Except.error "boom" }

/-- A well-behaved rule placed after the failing one. -/
def okRule : ExaminationRule :=
  { name := "演示通过规则", rule_type := RuleType.FORMAL, priority := 2,
    is_active := true, evaluate := fun d => Except.ok (documentCompletenessEval d) }

/-! ## Helper lemmas -/

theorem summaryStep_failed (acc : SummaryAcc) (r : RuleExecutionResult) :
    (summaryStep acc r).failed =
      acc.failed + (if r.result = RuleResult.FAIL then 1 else 0) := by
  cases hr : r.result <;> by_cases hc : 0 < r.confidence <;>
    simp [summaryStep, hr, hc]

theorem summaryStep_warnings (acc : SummaryAcc) (r : RuleExecutionResult) :
    (summaryStep acc r).warnings =
      acc.warnings + (if r.result = RuleResult.WARNING then 1 else 0) := by
  cases hr : r.result <;> by_cases hc : 0 < r.confidence <;>
    simp [summaryStep, hr, hc]

theorem summaryStep_confidence_sum (acc : SummaryAcc) (r : RuleExecutionResult) :
    (summaryStep acc r).confidence_sum =
      acc.confidence_sum + (if 0 < r.confidence then r.confidence else 0) := by
  cases hr : r.result <;> by_cases hc : 0 < r.confidence <;>
    simp [summaryStep, hr, hc]

theorem summaryStep_confidence_count (acc : SummaryAcc) (r : RuleExecutionResult) :
    (summaryStep acc r).confidence_count =
      acc.confidence_count + (if 0 < r.confidence then 1 else 0) := by
  cases hr : r.result <;> by_cases hc : 0 < r.confidence <;>
    simp [summaryStep, hr, hc]

theorem foldl_summaryStep_failed (results : List RuleExecutionResult) (acc : SummaryAcc) :
    (results.foldl summaryStep acc).failed =
      acc.failed + results.countP (fun r => decide (r.result = RuleResult.FAIL)) := by
  induction results generalizing acc with
  | nil => simp
  | cons r rs ih =>
    rw [List.foldl_cons, ih, summaryStep_failed, List.countP_cons]
    by_cases h : r.result = RuleResult.FAIL <;> simp [h] <;> omega

theorem foldl_summaryStep_warnings (results : List RuleExecutionResult) (acc : SummaryAcc) :
    (results.foldl summaryStep acc).warnings =
      acc.warnings + results.countP (fun r => decide (r.result = RuleResult.WARNING)) := by
  induction results generalizing acc with
  | nil => simp
  | cons r rs ih =>
    rw [List.foldl_cons, ih, summaryStep_warnings, List.countP_cons]
    by_cases h : r.result = RuleResult.WARNING <;> simp [h] <;> omega

theorem foldl_summaryStep_confidence_sum (results : List RuleExecutionResult) (acc : SummaryAcc) :
    (results.foldl summaryStep acc).confidence_sum =
      acc.confidence_sum +
        ((results.filter (fun r => decide (0 < r.confidence))).map
          (fun r => r.confidence)).sum := by
  induction results generalizing acc with
  | nil => simp
  | cons r rs ih =>
    rw [List.foldl_cons, ih, summaryStep_confidence_sum, List.filter_cons]
    by_cases h : 0 < r.confidence
    · simp [h]
      ring
    · simp [h]

theorem foldl_summaryStep_confidence_count (results : List RuleExecutionResult) (acc : SummaryAcc) :
    (results.foldl summaryStep acc).confidence_count =
      acc.confidence_count + (results.filter (fun r => decide (0 < r.confidence))).length := by
  induction results generalizing acc with
  | nil => simp
  | cons r rs ih =>
    rw [List.foldl_cons, ih, summaryStep_confidence_count, List.filter_cons]
    by_cases h : 0 < r.confidence
    · simp [h]; omega
    · simp [h]

/-! ## Claim theorems -/

/-- C1: Per-rule isolation — for every record and every registered active
rule whose `evaluate` raises, `execute_rules` produces for that rule exactly
one outcome with verdict SKIP, confidence 0.0, a message embedding the
failure reason, and zero execution time, and every other rule of the
registry (before and after it) still contributes its own outcomes. -/
theorem execute_rules_isolates_failures
    (pre post : List ExaminationRule) (r : ExaminationRule)
    (d : PatentDocument) (ts : Option (List RuleType)) (e : String)
    (hact : r.is_active = true) (hfl : passesFilter ts r = true)
    (herr : r.evaluate d = Except.error e) :
    executeRules (pre ++ r :: post) d ts =
      executeRules pre d ts ++
        ({ rule_name := r.name, rule_type := r.rule_type, result := RuleResult.SKIP,
           confidence := 0, message := "规则执行失败: " ++ e,
           details := [("error", DetailVal.str e)], execution_time := 0 } :
          RuleExecutionResult) :: executeRules post d ts := by
  unfold executeRules
  rw [List.flatMap_append, List.flatMap_cons]
  congr 1
  unfold runOneRule
  rw [hact, hfl, herr]
  simp [ruleFailureResult]

theorem execute_rules_isolates_failures_witness :
    badRule.is_active = true ∧ passesFilter none badRule = true ∧
    badRule.evaluate emptyPatentDocument = Except.error "boom" ∧
    executeRules ([] ++ badRule :: [okRule]) emptyPatentDocument none =
      executeRules [] emptyPatentDocument none ++
        ({ rule_name := badRule.name, rule_type := badRule.rule_type,
           result := RuleResult.SKIP, confidence := 0,
           message := "规则执行失败: " ++ "boom",
           details := [("error", DetailVal.str "boom")], execution_time := 0 } :
          RuleExecutionResult) :: executeRules [okRule] emptyPatentDocument none :=
  ⟨rfl, rfl, rfl,
    execute_rules_isolates_failures [] [okRule] badRule emptyPatentDocument none "boom"
      rfl rfl rfl⟩

/-- C2: Aggregation priority — `get_summary` chooses the overall
recommendation by the total order FAIL > WARNING > clean: any FAIL outcome
yields 需要修改后重新审查, otherwise any WARNING yields 建议完善相关内容,
otherwise 形式审查通过. -/
theorem get_summary_recommendation_priority (results : List RuleExecutionResult) :
    (getSummary results).overall_recommendation =
      if results.any (fun r => decide (r.result = RuleResult.FAIL)) then "需要修改后重新审查"
      else if results.any (fun r => decide (r.result = RuleResult.WARNING)) then "建议完善相关内容"
      else "形式审查通过" := by
  have hf := foldl_summaryStep_failed results initSummaryAcc
  have hw := foldl_summaryStep_warnings results initSummaryAcc
  rw [show initSummaryAcc.failed = 0 from rfl, Nat.zero_add] at hf
  rw [show initSummaryAcc.warnings = 0 from rfl, Nat.zero_add] at hw
  have hf2 : 0 < (results.foldl summaryStep initSummaryAcc).failed ↔
      results.any (fun r => decide (r.result = RuleResult.FAIL)) = true := by
    rw [hf, List.countP_pos_iff, List.any_eq_true]
  have hw2 : 0 < (results.foldl summaryStep initSummaryAcc).warnings ↔
      results.any (fun r => decide (r.result = RuleResult.WARNING)) = true := by
    rw [hw, List.countP_pos_iff, List.any_eq_true]
  unfold getSummary
  by_cases hF : results.any (fun r => decide (r.result = RuleResult.FAIL)) = true
  · simp [hf2.mpr hF, hF]
  · have hnF : ¬ 0 < (results.foldl summaryStep initSummaryAcc).failed := fun h => hF (hf2.mp h)
    by_cases hW : results.any (fun r => decide (r.result = RuleResult.WARNING)) = true
    · simp [hnF, hf2, hw2.mpr hW, hF, hW]
    · have hnW : ¬ 0 < (results.foldl summaryStep initSummaryAcc).warnings :=
        fun h => hW (hw2.mp h)
      simp [hnF, hnW, hF, hW]

/-- C6: Mean-confidence aggregation — the overall confidence of
`get_summary` is the arithmetic mean of the confidences of exactly those
outcomes whose confidence is strictly positive (outcomes with confidence 0
count in neither numerator nor denominator), and it is 0 when no outcome has
positive confidence. -/
theorem get_summary_mean_confidence (results : List RuleExecutionResult) :
    (getSummary results).overall_confidence =
      if (results.filter (fun r => decide (0 < r.confidence))).length = 0 then 0
      else
        ((results.filter (fun r => decide (0 < r.confidence))).map
            (fun r => r.confidence)).sum /
          ((results.filter (fun r => decide (0 < r.confidence))).length : ℚ) := by
  have hs := foldl_summaryStep_confidence_sum results initSummaryAcc
  have hc := foldl_summaryStep_confidence_count results initSummaryAcc
  rw [show initSummaryAcc.confidence_sum = 0 from rfl, zero_add] at hs
  rw [show initSummaryAcc.confidence_count = 0 from rfl, Nat.zero_add] at hc
  unfold getSummary
  simp only []
  rw [hs, hc]
  by_cases h : (results.filter (fun r => decide (0 < r.confidence))).length = 0
  · simp [h]
  · simp [h, Nat.pos_of_ne_zero h]

/-- C7: Validation partition — for a record whose title, applicant and
claims are all absent or empty, `validate_document` reports exactly the
three errors missing-title, missing-applicant and missing-claims, and no
error about any other field, independent of the warnings it accumulates. -/
theorem validate_missing_all_required (d : PatentDocument)
    (h1 : optTruthy d.title = false) (h2 : optTruthy d.applicant = false)
    (h3 : d.claims = []) :
    (validateDocument d).errors = ["缺少发明名称", "缺少申请人信息", "缺少权利要求书"] := by
  unfold validateDocument
  simp [h1, h2, h3]

theorem validate_missing_all_required_witness :
    optTruthy emptyPatentDocument.title = false ∧
    optTruthy emptyPatentDocument.applicant = false ∧
    emptyPatentDocument.claims = [] ∧
    (validateDocument emptyPatentDocument).errors =
      ["缺少发明名称", "缺少申请人信息", "缺少权利要求书"] :=
  ⟨rfl, rfl, rfl, validate_missing_all_required emptyPatentDocument rfl rfl rfl⟩

/-- C10: Unreachable empty-claims validation branch — `validate_document`
never emits the error 权利要求书为空, because its guard (claims truthy and of
length 0) is unsatisfiable; an empty claims list is reported only through
缺少权利要求书. -/
theorem validate_empty_claims_branch_unreachable (d : PatentDocument) :
    "权利要求书为空" ∉ (validateDocument d).errors ∧
      (d.claims = [] → "缺少权利要求书" ∈ (validateDocument d).errors) := by
  constructor
  · unfold validateDocument
    simp only [List.mem_append]
    intro hmem
    rcases hmem with ((h | h) | h) | h
    · revert h; split <;> simp
    · revert h; split <;> simp
    · revert h; split <;> simp
    · revert h
      split
      · rename_i hguard
        simp only [Bool.and_eq_true, Bool.not_eq_true', List.isEmpty_eq_false,
          decide_eq_true_eq] at hguard
        exact absurd (List.length_eq_zero.mp hguard.2) hguard.1
      · simp
  · intro h
    unfold validateDocument
    simp [h]

theorem validate_empty_claims_branch_unreachable_witness :
    "权利要求书为空" ∉ (validateDocument emptyPatentDocument).errors ∧
      "缺少权利要求书" ∈ (validateDocument emptyPatentDocument).errors :=
  ⟨(validate_empty_claims_branch_unreachable emptyPatentDocument).1,
    (validate_empty_claims_branch_unreachable emptyPatentDocument).2 rfl⟩

/-- C9: The extractor never populates `description` or `drawings` (no
pattern assigns them), so the completeness rule, whose required fields
include `description`, can never return PASS on a record produced directly
by `_extract_patent_info`. -/
theorem extract_never_passes_completeness (text : List Char) :
    (extractPatentInfo text).description = none ∧
    (extractPatentInfo text).drawings = [] ∧
    (documentCompletenessEval (extractPatentInfo text)).result ≠ RuleResult.PASS := by
  refine ⟨rfl, rfl, ?_⟩
  have hdesc : getFieldTruthy (extractPatentInfo text) "description" = false := by
    simp [getFieldTruthy, extractPatentInfo, optTruthy]
  have hmem : "description" ∈
      requiredFields.filter (fun f => !getFieldTruthy (extractPatentInfo text) f) := by
    rw [List.mem_filter]
    refine ⟨by simp [requiredFields], ?_⟩
    simp [hdesc]
  have hne : (requiredFields.filter
      (fun f => !getFieldTruthy (extractPatentInfo text) f)).isEmpty = false := by
    rw [List.isEmpty_eq_false]
    exact List.ne_nil_of_mem hmem
  unfold documentCompletenessEval completenessOutcome
  rw [hne]
  simp

/-- C3: Extraction totality — `_extract_patent_info` is total (a Lean
function), and every field whose patterns do not match is left absent:
scalars are `none`, sequences are `[]`; `agent`, `description` and
`drawings`, which no pattern assigns, are always absent or empty. -/
theorem extraction_totality (text : List Char) :
    (firstMatch matchAppNumberAt text = none →
      (extractPatentInfo text).application_number = none) ∧
    (firstMatch matchAppDateAt text = none →
      (extractPatentInfo text).application_date = none) ∧
    (firstMatch matchTitleAt1 text = none → firstMatch matchTitleAt2 text = none →
      firstMatch matchTitleAt3 text = none → (extractPatentInfo text).title = none) ∧
    (firstMatch matchApplicantAt text = none →
      (extractPatentInfo text).applicant = none) ∧
    (firstMatch matchInventorAt text = none →
      (extractPatentInfo text).inventor = none) ∧
    (extractPatentInfo text).agent = none ∧
    (firstMatch matchTechAt1 text = none → firstMatch matchTechAt2 text = none →
      (extractPatentInfo text).technical_field = none) ∧
    (firstMatch matchBgAt text = none →
      (extractPatentInfo text).background_art = none) ∧
    (firstMatch matchContentAt text = none →
      (extractPatentInfo text).invention_content = none) ∧
    (firstMatch matchClaimsAt text = none →
      (extractPatentInfo text).claims = []) ∧
    (extractPatentInfo text).description = none ∧
    (extractPatentInfo text).drawings = [] ∧
    (firstMatch matchAbstractAt text = none →
      (extractPatentInfo text).abstract = none) := by
  refine ⟨?_, ?_, ?_, ?_, ?_, rfl, ?_, ?_, ?_, ?_, rfl, rfl, ?_⟩
  · intro h; simp [extractPatentInfo, h]
  · intro h; simp [extractPatentInfo, h]
  · intro h1 h2 h3; simp [extractPatentInfo, h1, h2, h3]
  · intro h; simp [extractPatentInfo, h]
  · intro h; simp [extractPatentInfo, h]
  · intro h1 h2; simp [extractPatentInfo, h1, h2]
  · intro h; simp [extractPatentInfo, h]
  · intro h; simp [extractPatentInfo, h]
  · intro h; simp [extractPatentInfo, h]
  · intro h; simp [extractPatentInfo, h]

theorem extraction_totality_witness :
    (extractPatentInfo []).application_number = none ∧
    (extractPatentInfo []).application_date = none ∧
    (extractPatentInfo []).title = none ∧
    (extractPatentInfo []).applicant = none ∧
    (extractPatentInfo []).inventor = none ∧
    (extractPatentInfo []).agent = none ∧
    (extractPatentInfo []).technical_field = none ∧
    (extractPatentInfo []).background_art = none ∧
    (extractPatentInfo []).invention_content = none ∧
    (extractPatentInfo []).claims = [] ∧
    (extractPatentInfo []).description = none ∧
    (extractPatentInfo []).drawings = [] ∧
    (extractPatentInfo []).abstract = none :=
  ⟨(extraction_totality []).1 rfl,
   (extraction_totality []).2.1 rfl,
   (extraction_totality []).2.2.1 rfl rfl rfl,
   (extraction_totality []).2.2.2.1 rfl,
   (extraction_totality []).2.2.2.2.1 rfl,
   (extraction_totality []).2.2.2.2.2.1,
   (extraction_totality []).2.2.2.2.2.2.1 rfl rfl,
   (extraction_totality []).2.2.2.2.2.2.2.1 rfl,
   (extraction_totality []).2.2.2.2.2.2.2.2.1 rfl,
   (extraction_totality []).2.2.2.2.2.2.2.2.2.1 rfl,
   (extraction_totality []).2.2.2.2.2.2.2.2.2.2.1,
   (extraction_totality []).2.2.2.2.2.2.2.2.2.2.2.1,
   (extraction_totality []).2.2.2.2.2.2.2.2.2.2.2.2 rfl⟩

theorem mem_insertRule {y x : ExaminationRule} :
    ∀ {m : List ExaminationRule}, y ∈ insertRule x m ↔ y = x ∨ y ∈ m
  | [] => by simp [insertRule]
  | s :: l => by
    unfold insertRule
    split
    · simp
    · rw [List.mem_cons, mem_insertRule (m := l), List.mem_cons]
      tauto

theorem insertRule_sorted {x : ExaminationRule} :
    ∀ {m : List ExaminationRule}, SortedByPriority m → SortedByPriority (insertRule x m)
  | [] => fun _ => List.pairwise_singleton _ _
  | s :: l => fun h => by
    rw [SortedByPriority, List.pairwise_cons] at h
    unfold insertRule
    split
    · rename_i hle
      rw [SortedByPriority, List.pairwise_cons]
      refine ⟨?_, List.pairwise_cons.mpr h⟩
      intro b hb
      rcases List.mem_cons.mp hb with hb | hb
      · exact hb ▸ hle
      · exact le_trans hle (h.1 b hb)
    · rename_i hgt
      rw [SortedByPriority, List.pairwise_cons]
      refine ⟨?_, insertRule_sorted h.2⟩
      intro b hb
      rcases mem_insertRule.mp hb with hb | hb
      · exact hb ▸ le_of_not_le hgt
      · exact h.1 b hb

theorem sortRules_sorted : ∀ l : List ExaminationRule, SortedByPriority (sortRules l)
  | [] => List.Pairwise.nil
  | r :: l => insertRule_sorted (sortRules_sorted l)

/-- Stability of one insertion: the priority classes of `insertRule x m` are
those of `x :: m` — the inserted rule passes only rules of strictly smaller
priority, never a rule of its own class. -/
theorem filterPriority_insertRule (x : ExaminationRule) (q : Int) :
    ∀ m : List ExaminationRule,
      filterPriority q (insertRule x m) = filterPriority q (x :: m)
  | [] => rfl
  | s :: l => by
    unfold insertRule
    split
    · rfl
    · rename_i hgt
      have hlt : s.priority < x.priority := lt_of_not_le hgt
      have ih := filterPriority_insertRule x q l
      unfold filterPriority at ih ⊢
      by_cases hx : x.priority = q <;> by_cases hs : s.priority = q
      · exfalso; omega
      · simp only [List.filter_cons, hx, hs] at ih ⊢
        simp only [decide_True, decide_False, if_true, if_false] at ih ⊢
        simp [ih]
      · simp only [List.filter_cons, hx, hs] at ih ⊢
        simp only [decide_True, decide_False, if_true, if_false] at ih ⊢
        simp [ih]
      · simp only [List.filter_cons, hx, hs] at ih ⊢
        simp only [decide_True, decide_False, if_true, if_false] at ih ⊢
        simp [ih]

theorem filterPriority_sortRules (q : Int) :
    ∀ l : List ExaminationRule, filterPriority q (sortRules l) = filterPriority q l
  | [] => rfl
  | r :: l => by
    rw [sortRules, filterPriority_insertRule]
    unfold filterPriority
    simp only [List.filter_cons]
    have ih := filterPriority_sortRules q l
    unfold filterPriority at ih
    rw [ih]

theorem foldl_registry_invariant (ops : List RegistryOp)
    (reg naive : List ExaminationRule)
    (hs : SortedByPriority reg)
    (hf : ∀ q : Int, filterPriority q reg = filterPriority q naive) :
    SortedByPriority (ops.foldl applyOp reg) ∧
      ∀ q : Int, filterPriority q (ops.foldl applyOp reg) =
        filterPriority q (ops.foldl naiveOp naive) := by
  induction ops generalizing reg naive with
  | nil => exact ⟨hs, hf⟩
  | cons op ops ih =>
    cases op with
    | add r =>
      apply ih
      · exact sortRules_sorted _
      · intro q
        rw [applyOp, addRule, filterPriority_sortRules, naiveOp]
        unfold filterPriority
        rw [List.filter_append, List.filter_append]
        have := hf q
        unfold filterPriority at this
        rw [this]
    | remove n =>
      apply ih
      · exact hs.sublist (List.filter_sublist _)
      · intro q
        rw [applyOp, removeRule, naiveOp]
        unfold filterPriority
        rw [List.filter_filter, List.filter_filter]
        have heq : (fun a : ExaminationRule =>
            decide (a.priority = q) && decide (¬a.name = n)) =
            (fun a : ExaminationRule =>
              decide (¬a.name = n) && decide (a.priority = q)) := by
          funext a
          exact Bool.and_comm _ _
        rw [heq]
        rw [← List.filter_filter, ← List.filter_filter]
        have := hf q
        unfold filterPriority at this
        rw [this]

/-- C8: Registry ordering invariant — after every sequence of register and
unregister operations (starting from an empty registry) the rule list is
sorted by ascending priority and, within each priority class, keeps pure
registration order (the order of the same operations without re-sorting);
and unregistering a name that no rule carries leaves the list unchanged. -/
theorem registry_ordering_invariant :
    (∀ ops : List RegistryOp,
      SortedByPriority (applyOps ops) ∧
        ∀ q : Int, filterPriority q (applyOps ops) = filterPriority q (naiveOps ops)) ∧
    ∀ (rules : List ExaminationRule) (n : String),
      (∀ x ∈ rules, x.name ≠ n) → removeRule rules n = rules := by
  constructor
  · intro ops
    exact foldl_registry_invariant ops [] [] List.Pairwise.nil (fun _ => rfl)
  · intro rules n h
    apply List.filter_eq_self.mpr
    intro a ha
    simpa using h a ha

theorem registry_ordering_invariant_witness :
    (SortedByPriority (applyOps [RegistryOp.add okRule, RegistryOp.add badRule]) ∧
      ∀ q : Int, filterPriority q (applyOps [RegistryOp.add okRule, RegistryOp.add badRule]) =
        filterPriority q (naiveOps [RegistryOp.add okRule, RegistryOp.add badRule])) ∧
    removeRule [badRule] "不存在的规则" = [badRule] :=
  ⟨registry_ordering_invariant.1 [RegistryOp.add okRule, RegistryOp.add badRule],
    registry_ordering_invariant.2 [badRule] "不存在的规则"
      (by intro x hx; rw [List.mem_singleton] at hx; subst hx; decide)⟩

/-! ### Helper lemmas for the claims reconstruction round-trip -/

theorem dropWhile_eq_drop_takeWhile_length (p : α → Bool) :
    ∀ l : List α, l.dropWhile p = l.drop (l.takeWhile p).length
  | [] => rfl
  | c :: r => by
    by_cases h : p c
    · simp [List.dropWhile_cons, List.takeWhile_cons, h,
        dropWhile_eq_drop_takeWhile_length p r]
    · simp [List.dropWhile_cons, List.takeWhile_cons, h]

theorem takeWhile_append_of_dropWhile_ne_nil {p : α → Bool} {l : List α}
    (h : l.dropWhile p ≠ []) (m : List α) :
    (l ++ m).takeWhile p = l.takeWhile p := by
  rw [List.takeWhile_append]
  split
  · rename_i hlen
    exfalso
    apply h
    rw [dropWhile_eq_drop_takeWhile_length, hlen, List.drop_length]
  · rfl

theorem takeWhile_eq_self_of_all {p : α → Bool} {l : List α} (h : l.all p = true) :
    l.takeWhile p = l :=
  List.takeWhile_eq_self_iff.mpr (by simpa using h)

theorem digitsDotSplit_numberDot {n : List Char} (m : List Char)
    (h1 : n ≠ []) (h2 : n.all Char.isDigit = true) :
    digitsDotSplit (n ++ '.' :: m) = some (n, m) := by
  have htw : (n ++ '.' :: m).takeWhile Char.isDigit = n := by
    rw [List.takeWhile_append]
    rw [takeWhile_eq_self_of_all h2]
    simp [List.takeWhile_cons]
  unfold digitsDotSplit
  rw [htw]
  rw [if_neg (by simpa [List.isEmpty_iff] using h1)]
  rw [List.drop_left]
  rfl

theorem digitsDotSplit_of_noDigitsDot :
    ∀ {l : List Char}, noDigitsDot l = true → ∀ k, digitsDotSplit (l.drop k) = none
  | [], _, k => by simp [digitsDotSplit]
  | c :: r, h, 0 => by
    rw [noDigitsDot, Bool.and_eq_true, Bool.not_eq_true'] at h
    have hb := h.1
    rw [claimBoundary] at hb
    cases hdd : digitsDotSplit (c :: r) with
    | none => simpa using hdd
    | some p => rw [hdd] at hb; simp at hb
  | c :: r, h, k + 1 => by
    rw [noDigitsDot, Bool.and_eq_true] at h
    simpa using digitsDotSplit_of_noDigitsDot h.2 k

theorem digitsDotSplit_append_none {u : List Char} (v : List Char)
    (h1 : digitsDotSplit u = none) (h2 : u.all Char.isDigit = false) :
    digitsDotSplit (u ++ v) = none := by
  have hdw : u.dropWhile Char.isDigit ≠ [] := by
    intro hcon
    rw [List.dropWhile_eq_nil_iff] at hcon
    have hall : u.all Char.isDigit = true := List.all_eq_true.mpr hcon
    rw [h2] at hall
    exact Bool.false_ne_true hall
  have htw : (u ++ v).takeWhile Char.isDigit = u.takeWhile Char.isDigit :=
    takeWhile_append_of_dropWhile_ne_nil hdw v
  have hlen : (u.takeWhile Char.isDigit).length ≤ u.length :=
    (u.takeWhile_sublist Char.isDigit).length_le
  unfold digitsDotSplit at h1 ⊢
  rw [htw]
  split at h1
  · rename_i hemp
    rw [if_pos hemp]
  · rename_i hemp
    rw [if_neg hemp]
    rw [List.drop_append_of_le_length hlen]
    cases hd : u.dropWhile Char.isDigit with
    | nil => exact absurd hd hdw
    | cons c rest =>
      have hdrop : u.drop (u.takeWhile Char.isDigit).length = c :: rest := by
        rw [← dropWhile_eq_drop_takeWhile_length]
        exact hd
      rw [hdrop] at h1
      rw [hdrop, List.cons_append]
      by_cases hc : c = '.'
      · subst hc
        simp at h1
      · split
        · rename_i heq
          exact absurd (List.cons_eq_cons.mp heq).1 hc
        · rfl

theorem getLast?_drop_of_ne_nil {b : List Char} {j : Nat} (h : b.drop j ≠ []) :
    (b.drop j).getLast? = b.getLast? := by
  conv_rhs => rw [← List.take_append_drop j b]
  rw [List.getLast?_append]
  cases hu : (b.drop j).getLast? with
  | none => exact absurd (List.getLast?_eq_none_iff.mp hu) h
  | some a => rfl

theorem all_getLast?_true {u : List Char} {p : Char → Bool} {c : Char}
    (hall : u.all p = true) (hlast : u.getLast? = some c) : p c = true :=
  List.all_eq_true.mp hall c (List.mem_of_getLast?_eq_some hlast)

theorem growUntil_append (isTerm : List Char → Bool) :
    ∀ (r rest : List Char),
      (rest = [] ∨ isTerm rest = true) →
      (∀ k, k < r.length → isTerm (r.drop k ++ rest) = false) →
      growUntil isTerm (r ++ rest) = (r, rest)
  | [], rest, hstop, _ => by
    rcases hstop with h | h
    · subst h; rfl
    · cases rest with
      | nil => rfl
      | cons c t => simp [growUntil, h]
  | c :: r, rest, hstop, hno => by
    have h0 : isTerm (c :: (r ++ rest)) = false := by
      have h := hno 0 (by simp)
      simpa using h
    have ih := growUntil_append isTerm r rest hstop
      (fun k hk => by
        have h := hno (k + 1) (by simpa using Nat.succ_lt_succ hk)
        simpa using h)
    rw [List.cons_append, growUntil, h0]
    simp only [Bool.false_eq_true, if_false, ih]

theorem matchClaimTail_split (b rest : List Char)
    (hbody : b.dropWhile isSpaceChar ≠ [])
    (hstop : rest = [] ∨ claimBoundary rest = true)
    (hno : ∀ k, k + 1 < (b.dropWhile isSpaceChar).length →
      claimBoundary ((b.dropWhile isSpaceChar).drop (k + 1) ++ rest) = false) :
    matchClaimTail (b ++ rest) = some (b.dropWhile isSpaceChar, rest) := by
  have htw : (b ++ rest).takeWhile isSpaceChar = b.takeWhile isSpaceChar :=
    takeWhile_append_of_dropWhile_ne_nil hbody rest
  have hlen : (b.takeWhile isSpaceChar).length ≤ b.length :=
    (b.takeWhile_sublist isSpaceChar).length_le
  have hdropb : b.drop (b.takeWhile isSpaceChar).length = b.dropWhile isSpaceChar :=
    (dropWhile_eq_drop_takeWhile_length _ b).symm
  cases hd : b.dropWhile isSpaceChar with
  | nil => exact absurd hd hbody
  | cons c r =>
    have hg : growUntil claimBoundary (r ++ rest) = (r, rest) := by
      apply growUntil_append claimBoundary r rest hstop
      intro k hk
      have h := hno k (by rw [hd]; simpa using Nat.succ_lt_succ hk)
      rw [hd] at h
      simpa using h
    unfold matchClaimTail
    rw [htw, List.drop_append_of_le_length hlen, hdropb, hd, List.cons_append]
    simp [hg]

theorem findClaims_cons_some {c : Char} {rest : List Char}
    {p q : List Char × List Char}
    (h1 : digitsDotSplit (c :: rest) = some p) (h2 : matchClaimTail p.2 = some q) :
    findClaims (c :: rest) = (p.1, q.1) :: findClaims q.2 := by
  rw [findClaims]
  split
  · rename_i p2 hp2
    rw [hp2] at h1
    injection h1 with h1'
    subst h1'
    split
    · rename_i q2 hq2
      rw [hq2] at h2
      injection h2 with h2'
      subst h2'
      rfl
    · rename_i hq2
      rw [hq2] at h2
      exact absurd h2 (by simp)
  · rename_i hp2
    rw [hp2] at h1
    exact absurd h1 (by simp)

theorem dropWhile_idem (p : α → Bool) :
    ∀ l : List α, (l.dropWhile p).dropWhile p = l.dropWhile p
  | [] => rfl
  | c :: r => by
    by_cases h : p c
    · simp [List.dropWhile_cons, h, dropWhile_idem p r]
    · simp [List.dropWhile_cons, h]

theorem trimChars_dropWhile (l : List Char) :
    trimChars (l.dropWhile isSpaceChar) = trimChars l := by
  unfold trimChars
  rw [dropWhile_idem]

theorem wfClaimPair_spec {n b : List Char} (h : wfClaimPair (n, b) = true) :
    n ≠ [] ∧ n.all Char.isDigit = true ∧ b.dropWhile isSpaceChar ≠ [] ∧
    noDigitsDot b = true ∧ ∃ c0, b.getLast? = some c0 ∧ c0.isDigit = false := by
  unfold wfClaimPair at h
  simp only [Bool.and_eq_true, Bool.not_eq_true'] at h
  obtain ⟨⟨⟨⟨h1, h2⟩, h3⟩, h4⟩, h5⟩ := h
  refine ⟨by simpa [List.isEmpty_iff] using h1, h2,
    by simpa [List.isEmpty_iff] using h3, h4, ?_⟩
  cases hl : b.getLast? with
  | none => rw [hl] at h5; simp at h5
  | some c0 =>
    rw [hl] at h5
    exact ⟨c0, rfl, by simpa using h5⟩

theorem renderClaims_cons (n b : List Char) (tl : List (List Char × List Char)) :
    renderClaims ((n, b) :: tl) = n ++ '.' :: (b ++ renderClaims tl) := by
  rw [renderClaims, renderClaims, List.flatMap_cons, List.append_assoc]
  rfl

theorem claimBoundary_renderClaims_cons {n : List Char} (b : List Char)
    (tl : List (List Char × List Char))
    (h1 : n ≠ []) (h2 : n.all Char.isDigit = true) :
    claimBoundary (renderClaims ((n, b) :: tl)) = true := by
  rw [renderClaims_cons, claimBoundary, digitsDotSplit_numberDot _ h1 h2]
  rfl

theorem claimBoundary_drop_body_false {b : List Char} (rest : List Char)
    (hnd : noDigitsDot b = true) {c0 : Char}
    (hc0 : b.getLast? = some c0) (hc0d : c0.isDigit = false)
    (k : Nat) (hk : k + 1 < (b.dropWhile isSpaceChar).length) :
    claimBoundary ((b.dropWhile isSpaceChar).drop (k + 1) ++ rest) = false := by
  have hdw : b.dropWhile isSpaceChar = b.drop (b.takeWhile isSpaceChar).length :=
    dropWhile_eq_drop_takeWhile_length _ b
  have hdrop : (b.dropWhile isSpaceChar).drop (k + 1) =
      b.drop ((b.takeWhile isSpaceChar).length + (k + 1)) := by
    rw [hdw, List.drop_drop]
  have hne : (b.dropWhile isSpaceChar).drop (k + 1) ≠ [] := by
    intro hcon
    have := congrArg List.length hcon
    simp only [List.length_drop, List.length_nil] at this
    omega
  have hnone : digitsDotSplit ((b.dropWhile isSpaceChar).drop (k + 1)) = none := by
    rw [hdrop]
    exact digitsDotSplit_of_noDigitsDot hnd _
  have hlast : ((b.dropWhile isSpaceChar).drop (k + 1)).getLast? = some c0 := by
    rw [hdrop]
    rw [hdrop] at hne
    rw [getLast?_drop_of_ne_nil hne]
    exact hc0
  have hall : ((b.dropWhile isSpaceChar).drop (k + 1)).all Char.isDigit = false := by
    cases hA : ((b.dropWhile isSpaceChar).drop (k + 1)).all Char.isDigit
    · rfl
    · have := all_getLast?_true hA hlast
      rw [hc0d] at this
      exact absurd this Bool.false_ne_true
  rw [claimBoundary, digitsDotSplit_append_none _ hnone hall]
  rfl

theorem findClaims_render :
    ∀ ps : List (List Char × List Char),
      (∀ p ∈ ps, wfClaimPair p = true) →
      findClaims (renderClaims ps) = ps.map (fun p => (p.1, p.2.dropWhile isSpaceChar))
  | [], _ => by
    rw [show renderClaims [] = [] from rfl, findClaims]
    rfl
  | (n, b) :: tl, hwf => by
    obtain ⟨h1, h2, h3, h4, c0, hc0, hc0d⟩ :=
      wfClaimPair_spec (hwf _ (List.mem_cons_self _ _))
    have hstop : renderClaims tl = [] ∨ claimBoundary (renderClaims tl) = true := by
      cases tl with
      | nil => exact Or.inl rfl
      | cons p2 tl2 =>
        obtain ⟨n2, b2⟩ := p2
        obtain ⟨g1, g2, _, _, _⟩ :=
          wfClaimPair_spec (hwf _ (List.mem_cons_of_mem _ (List.mem_cons_self _ _)))
        exact Or.inr (claimBoundary_renderClaims_cons b2 tl2 g1 g2)
    have hmt : matchClaimTail (b ++ renderClaims tl) =
        some (b.dropWhile isSpaceChar, renderClaims tl) := by
      apply matchClaimTail_split b _ h3 hstop
      intro k hk
      exact claimBoundary_drop_body_false _ h4 hc0 hc0d k hk
    have hdd : digitsDotSplit (n ++ '.' :: (b ++ renderClaims tl)) =
        some (n, b ++ renderClaims tl) :=
      digitsDotSplit_numberDot _ h1 h2
    have ih := findClaims_render tl
      (fun p hp => hwf p (List.mem_cons_of_mem _ hp))
    cases n with
    | nil => exact absurd rfl h1
    | cons d n2 =>
      rw [renderClaims_cons, List.cons_append]
      simp only [List.cons_append] at hdd
      rw [findClaims_cons_some (p := (d :: n2, b ++ renderClaims tl))
        (q := (b.dropWhile isSpaceChar, renderClaims tl)) hdd hmt]
      rw [ih]
      rfl

/-- C4: Claims reconstruction round-trip — for every input text whose claims
section is exactly a sequence of N well-formed numbered claims (digits
followed by a dot, then the claim body), the extracted record has exactly N
claims and the i-th entry is the i-th claim's original number followed by
". " and the trimmed claim text. -/
theorem claims_reconstruction_roundtrip (text : List Char)
    (ps : List (List Char × List Char))
    (hsec : firstMatch matchClaimsAt text = some (renderClaims ps))
    (hwf : ∀ p ∈ ps, wfClaimPair p = true) :
    (extractPatentInfo text).claims =
      ps.map (fun p => p.1 ++ '.' :: ' ' :: trimChars p.2) ∧
    (extractPatentInfo text).claims.length = ps.length := by
  have hclaims : (extractPatentInfo text).claims =
      (findClaims (renderClaims ps)).map claimEntry := by
    simp [extractPatentInfo, hsec]
  have hmap : (extractPatentInfo text).claims =
      ps.map (fun p => p.1 ++ '.' :: ' ' :: trimChars p.2) := by
    rw [hclaims, findClaims_render ps hwf, List.map_map]
    have hfun : (claimEntry ∘ fun p : List Char × List Char =>
        (p.1, p.2.dropWhile isSpaceChar)) =
        fun p : List Char × List Char => p.1 ++ '.' :: ' ' :: trimChars p.2 := by
      funext p
      simp [claimEntry, Function.comp, trimChars_dropWhile]
    rw [hfun]
  exact ⟨hmap, by rw [hmap, List.length_map]⟩

theorem claims_reconstruction_roundtrip_witness :
    firstMatch matchClaimsAt ("权利要求书".data ++ renderClaims demoClaims) =
      some (renderClaims demoClaims) ∧
    (∀ p ∈ demoClaims, wfClaimPair p = true) ∧
    (extractPatentInfo ("权利要求书".data ++ renderClaims demoClaims)).claims =
      demoClaims.map (fun p => p.1 ++ '.' :: ' ' :: trimChars p.2) ∧
    (extractPatentInfo ("权利要求书".data ++ renderClaims demoClaims)).claims.length =
      demoClaims.length :=
  ⟨by decide, by decide,
    (claims_reconstruction_roundtrip _ demoClaims (by decide) (by decide)).1,
    (claims_reconstruction_roundtrip _ demoClaims (by decide) (by decide)).2⟩

theorem findClaims_cons_none {c : Char} {rest : List Char}
    (h : digitsDotSplit (c :: rest) = none) :
    findClaims (c :: rest) = findClaims rest := by
  rw [findClaims]
  split
  · rename_i p2 hp2
    rw [hp2] at h
    exact absurd h (by simp)
  · rfl

set_option maxRecDepth 40000 in
/-- C5: Concrete extraction scenario, evaluated on the sample text.  The
regex `申请号[：:]\s*(\d{13}|\d{4}\d{8})` can only capture digits, so on
`申请号：202123456789.0` the code extracts the twelve digits
`202123456789` and drops `.0` — the claimed value `202123456789.0` (also
asserted by the repository's own test `test_parse_text_document`) is not
what the code produces.  Title and claim count behave as claimed. -/
theorem extract_sample_evaluation :
    (extractPatentInfo sampleText).application_number = some "202123456789".data ∧
    ¬ (extractPatentInfo sampleText).application_number = some "202123456789.0".data ∧
    (extractPatentInfo sampleText).title = some "一种新型螺栓结构".data ∧
    (extractPatentInfo sampleText).claims.length = 2 := by
  refine ⟨by decide, by decide, by decide, ?_⟩
  have hsec : firstMatch matchClaimsAt sampleText =
      some (renderClaims sampleClaimPairs) := by decide
  have hclaims : (extractPatentInfo sampleText).claims =
      (findClaims (renderClaims sampleClaimPairs)).map claimEntry := by
    simp [extractPatentInfo, hsec]
  rw [hclaims, findClaims_render sampleClaimPairs (by decide)]
  simp [sampleClaimPairs]
